import Mathlib

/-!
Shallow embedding of the transaction-execution core of `src/backend/src/transactions.rs`
(a fork of the Exonum cryptocurrency service).

Conventions:
* `PubKey` and `Hash` are modelled as `Nat` identity tokens (the code treats them as
  opaque keys with equality only).
* u64 amounts are modelled as `Nat`; the only subtraction the code performs is guarded
  (or, where unguarded, the underflow hard-failure is modelled explicitly, see
  `Ledger.decrease_wallet_balance`).
* Execution results are `ExecResult := Option (Except Error Ledger)`:
  - `some (Except.ok l)` — the transaction succeeded, producing state `l`;
  - `some (Except.error e)` — the typed `ExecutionResult` error `e`; the framework
    rolls the fork back, so the pre-state persists (and indeed in the source every
    typed error is raised before any mutation);
  - `none` — a hard failure (a Rust panic: `.unwrap()` on `None`, or u64 underflow);
    the framework also rolls the fork back, so the pre-state persists.
* The `CurrencySchema` (ledger store) lives in `schema.rs`, which is not part of the
  provided sources; its read/write operations are modelled from the spec (§4.1) and
  are marked `Modelled from the spec:` in their doc comments.
* The content hash of each operation is computed externally from its canonical encoding
  (spec §6); `execute` therefore receives the hash of the operation itself as an explicit
  argument where the source calls `self.hash()`.
-/

abbrev PubKey := Nat

abbrev Hash := Nat

/-- Modelled from the spec: the Account record of the Ledger Store (§3) as used by
`transactions.rs`: identity key, spendable `available_balance` (the source reads it via
`wallet.balance()`), escrowed `frozen_balance`, and the `last_operation_hash` audit
reference recorded by each credit/debit. The human-readable name is irrelevant to every
operation modelled here and is omitted. -/
structure Wallet where
  pub_key : PubKey
  balance : Nat
  frozen_balance : Nat
  last_operation_hash : Hash
deriving DecidableEq, Repr

/-- Transfer `amount` of the currency from one wallet to another (field `from` and `to` are
Lean keywords, hence `from_`, `to_`). -/
structure Transfer where
  from_ : PubKey
  to_ : PubKey
  amount : Nat
  seed : Nat
deriving DecidableEq, Repr

/-- Issue `amount` of the currency to the wallet. -/
structure Issue where
  pub_key : PubKey
  issuer_key : PubKey
  amount : Nat
  seed : Nat
deriving DecidableEq, Repr

/-- Create wallet with the given name. -/
structure CreateWallet where
  pub_key : PubKey
  name : String
deriving DecidableEq, Repr

structure MailPreparation where
  meta : String
  pub_key : PubKey
  amount : Nat
  seed : Nat
deriving DecidableEq, Repr

structure MailAcceptance where
  sender : PubKey
  pub_key : PubKey
  amount : Nat
  accept : Bool
  seed : Nat
deriving DecidableEq, Repr

structure Cancellation where
  pub_key : PubKey
  sender : PubKey
  tx_hash : Hash
  type_transaction : Nat
deriving DecidableEq, Repr

/-- A recorded operation in the operation log of the ledger store: the canonical encoding
keyed by content hash, here kept in decoded form tagged by its actual variant. -/
inductive StoredTx where
  | transfer (t : Transfer)
  | issue (i : Issue)
  | createWallet (c : CreateWallet)
  | mailPreparation (m : MailPreparation)
  | mailAcceptance (m : MailAcceptance)
  | cancellation (c : Cancellation)
deriving DecidableEq, Repr

/-- Decoding `Message::from_raw::<Transfer>` on a stored raw message: the Exonum decoder checks
the message-type discriminant of the raw header, so decoding succeeds exactly when the
stored message really is a `Transfer`. -/
def StoredTx.asTransfer : StoredTx → Option Transfer
  | StoredTx.transfer t => some t
  | _ => none

/-- Error codes emitted by wallet transactions during execution
(`enum Error` in `transactions.rs`, `#[repr(u8)]`). -/
inductive Error where
  | WalletAlreadyExists
  | SenderNotFound
  | ReceiverNotFound
  | InsufficientCurrencyAmount
deriving DecidableEq, Repr

/-- The discriminant assigned by `#[repr(u8)]` (`value as u8`). -/
def Error.code : Error → Nat
  | Error.WalletAlreadyExists => 0
  | Error.SenderNotFound => 1
  | Error.ReceiverNotFound => 2
  | Error.InsufficientCurrencyAmount => 3

/-- The `#[fail(display = ...)]` description string of each error. -/
def Error.description : Error → String
  | Error.WalletAlreadyExists => "Wallet already exists"
  | Error.SenderNotFound => "Sender doesn\x27t exist"
  | Error.ReceiverNotFound => "Receiver doesn\x27t exist"
  | Error.InsufficientCurrencyAmount => "Insufficient currency amount"

/-- The type `exonum::blockchain::ExecutionError`: a numeric code with a description. -/
structure ExecutionError where
  code : Nat
  description : String
deriving DecidableEq, Repr

/-- Conversion `impl From<Error> for ExecutionError`: keeps the `u8` discriminant and the
`Display` text. -/
def Error.toExecutionError (value : Error) : ExecutionError :=
  { code := value.code, description := value.description }

/-- The mutable ledger view (`Fork` + `CurrencySchema`): the wallet table and the
append-only operation log keyed by content hash. -/
structure Ledger where
  wallets : List Wallet
  txlog : List (Hash × StoredTx)
deriving DecidableEq, Repr

def emptyLedger : Ledger := { wallets := [], txlog := [] }

/-- First wallet in the table whose key matches (the table is keyed by `pub_key`). -/
def findWallet (ws : List Wallet) (k : PubKey) : Option Wallet :=
  ws.find? (fun w => w.pub_key == k)

/-- Store a wallet record back into the table at its own key: replaces the first
record with the same `pub_key`, inserting if absent. -/
def putWallet : List Wallet → Wallet → List Wallet
  | [], w => [w]
  | x :: rest, w => if x.pub_key == w.pub_key then w :: rest else x :: putWallet rest w

/-- Modelled from the spec: `lookup_account` / `schema.wallet(pub_key)` (§4.1) —
read-only lookup of an Account record. -/
def Ledger.wallet (l : Ledger) (k : PubKey) : Option Wallet :=
  findWallet l.wallets k

/-- Modelled from the spec: `credit` / `schema.increase_wallet_balance(wallet, amount,
hash, freezed_balance)` (§4.1) — increases `available_balance` by `amount` on the given
record and records the causing operation hash as `last_operation_hash`; the record is
written back at its own key. -/
def Ledger.increase_wallet_balance (l : Ledger) (w : Wallet) (amount : Nat) (h : Hash)
    (freezed_balance : Nat) : Ledger :=
  let w1 : Wallet := { w with balance := w.balance + amount, last_operation_hash := h }
  { l with wallets := putWallet l.wallets w1 }

/-- Modelled from the spec: `debit` / `schema.decrease_wallet_balance(wallet, amount,
hash, freezed_balance)` (§4.1) — decreases `available_balance` by `amount`; a non-zero
freeze tag additionally records that amount against `frozen_balance` bookkeeping rather
than destroying it; fails with a hard integer-underflow failure (a panic, not a typed
error — hence `none`) if `amount > available_balance`. -/
def Ledger.decrease_wallet_balance (l : Ledger) (w : Wallet) (amount : Nat) (h : Hash)
    (freezed_balance : Nat) : Option Ledger :=
  if amount ≤ w.balance then
    let w1 : Wallet :=
      { w with balance := w.balance - amount,
               frozen_balance := w.frozen_balance + freezed_balance,
               last_operation_hash := h }
    some { l with wallets := putWallet l.wallets w1 }
  else none

/-- Lookup `schema.transactions().get(&tx_hash)` — read-only lookup in the operation log. -/
def Ledger.transactionsGet (l : Ledger) (h : Hash) : Option StoredTx :=
  l.txlog.lookup h

instance (priority := low) {e a : Type} [DecidableEq e] [DecidableEq a] :
    DecidableEq (Except e a) := fun x y =>
  match x, y with
  | Except.ok u, Except.ok v =>
    if h : u = v then isTrue (by rw [h]) else isFalse (fun hc => by cases hc; exact h rfl)
  | Except.error u, Except.error v =>
    if h : u = v then isTrue (by rw [h]) else isFalse (fun hc => by cases hc; exact h rfl)
  | Except.ok _, Except.error _ => isFalse (fun hc => by cases hc)
  | Except.error _, Except.ok _ => isFalse (fun hc => by cases hc)

abbrev ExecResult := Option (Except Error Ledger)

/-- Returns `true` exactly on a successful execution. -/
def execIsOk (r : ExecResult) : Bool :=
  match r with
  | some (Except.ok _) => true
  | _ => false

/-- The post-state of a successful execution (`emptyLedger` as a dummy otherwise). -/
def execOkState (r : ExecResult) : Ledger :=
  match r with
  | some (Except.ok l) => l
  | _ => emptyLedger

/-- Validation `Transfer::verify`: `(self.from() != self.to()) && self.verify_signature(self.from())`.
The signature check is an externally supplied fact (spec §4.2/§6) passed as `sigValid`. -/
def Transfer.verify (t : Transfer) (sigValid : Bool) : Bool :=
  (t.from_ != t.to_) && sigValid

/-- Validation `MailPreparation::verify`: `self.verify_signature(self.pub_key())`. -/
def MailPreparation.verify (_m : MailPreparation) (sigValid : Bool) : Bool :=
  sigValid

/-- Validation `MailAcceptance::verify`: `self.verify_signature(self.pub_key())`. -/
def MailAcceptance.verify (_m : MailAcceptance) (sigValid : Bool) : Bool :=
  sigValid

/-- Validation `Cancellation::verify`: `self.verify_signature(self.pub_key())`. -/
def Cancellation.verify (_c : Cancellation) (sigValid : Bool) : Bool :=
  sigValid

/-- Execution `Transfer::execute` (transactions.rs lines 152-172): fetch sender
(`SenderNotFound`), fetch receiver (`ReceiverNotFound`), check
`sender.balance() < amount` (`InsufficientCurrencyAmount`), then debit the sender and
credit the receiver with the hash `h` of the operation and zero freeze tag. -/
def Transfer.execute (t : Transfer) (h : Hash) (l : Ledger) : ExecResult :=
  let freezed_balance := 0
  match l.wallet t.from_ with
  | none => some (Except.error Error.SenderNotFound)
  | some sender =>
    match l.wallet t.to_ with
    | none => some (Except.error Error.ReceiverNotFound)
    | some receiver =>
      if sender.balance < t.amount then
        some (Except.error Error.InsufficientCurrencyAmount)
      else
        match l.decrease_wallet_balance sender t.amount h freezed_balance with
        | none => none
        | some l1 =>
          some (Except.ok (l1.increase_wallet_balance receiver t.amount h freezed_balance))

/-- Execution `Issue::execute` (transactions.rs lines 130-142): fetch the wallet
(`ReceiverNotFound` if absent), then credit `amount` with zero freeze tag. -/
def Issue.execute (i : Issue) (h : Hash) (l : Ledger) : ExecResult :=
  match l.wallet i.pub_key with
  | none => some (Except.error Error.ReceiverNotFound)
  | some wallet => some (Except.ok (l.increase_wallet_balance wallet i.amount h 0))

/-- Execution `MailPreparation::execute` (transactions.rs lines 202-214): fetch the wallet
(`SenderNotFound`), check `sender.balance() < amount` (`InsufficientCurrencyAmount`),
then debit `amount` with freeze tag equal to `amount`. -/
def MailPreparation.execute (m : MailPreparation) (h : Hash) (l : Ledger) : ExecResult :=
  match l.wallet m.pub_key with
  | none => some (Except.error Error.SenderNotFound)
  | some sender =>
    if sender.balance < m.amount then
      some (Except.error Error.InsufficientCurrencyAmount)
    else
      match l.decrease_wallet_balance sender m.amount h m.amount with
      | none => none
      | some l1 => some (Except.ok l1)

/-- Execution `MailAcceptance::execute` (transactions.rs lines 225-235): fetch the wallet named
by the `sender` field (`SenderNotFound`), then debit a zero amount with zero freeze
tag; the `amount`, `accept` and `pub_key` fields are never read. -/
def MailAcceptance.execute (m : MailAcceptance) (h : Hash) (l : Ledger) : ExecResult :=
  match l.wallet m.sender with
  | none => some (Except.error Error.SenderNotFound)
  | some sender =>
    let freezed_balance := 0
    match l.decrease_wallet_balance sender freezed_balance h freezed_balance with
    | none => none
    | some l1 => some (Except.ok l1)

/-- Execution `Cancellation::execute` (transactions.rs lines 245-287):
`schema.transactions().get(&tx_hash).unwrap()` — a missing reference hash panics
(`none`), it is not a typed error; `Message::from_raw::<Transfer>(raw).unwrap()` — a
stored non-Transfer message panics; if `type_transaction == 1` the accounts of the
recorded transfer are fetched (`SenderNotFound` / `ReceiverNotFound`) and the inverse pair is
applied — the receiver is debited with NO preceding balance check (underflow panics) —
tagged with the original `tx_hash`; any other tag is a no-op `Ok(())`. The
`pub_key` and `sender` fields of the Cancellation itself are never read. -/
def Cancellation.execute (c : Cancellation) (l : Ledger) : ExecResult :=
  match l.transactionsGet c.tx_hash with
  | none => none
  | some raw_tx =>
    match raw_tx.asTransfer with
    | none => none
    | some transaction =>
      if c.type_transaction = 1 then
        match l.wallet transaction.from_ with
        | none => some (Except.error Error.SenderNotFound)
        | some wallet_from =>
          match l.wallet transaction.to_ with
          | none => some (Except.error Error.ReceiverNotFound)
          | some wallet_to =>
            match l.decrease_wallet_balance wallet_to transaction.amount c.tx_hash 0 with
            | none => none
            | some l1 =>
              some (Except.ok (l1.increase_wallet_balance wallet_from transaction.amount c.tx_hash 0))
      else
        some (Except.ok l)

/-- The value of one account: `available_balance + frozen_balance` (spec §3/§8). -/
def wval (w : Wallet) : Nat :=
  w.balance + w.frozen_balance

/-- Sum of `available_balance + frozen_balance` over a wallet table. -/
def wsum (ws : List Wallet) : Nat :=
  (ws.map wval).sum

/-- Sum of `available_balance + frozen_balance` over all accounts of the ledger. -/
def totalValue (l : Ledger) : Nat :=
  wsum l.wallets

/-- The balance-relevant projection of the ledger: key, available and frozen balance of
every account, forgetting audit hashes. -/
def balancesView (l : Ledger) : List (PubKey × Nat × Nat) :=
  l.wallets.map (fun w => (w.pub_key, w.balance, w.frozen_balance))

/-- The three value-conserving operation kinds of the conservation property of spec §8. -/
inductive TxOp where
  | transfer (t : Transfer)
  | mailPreparation (m : MailPreparation)
  | mailAcceptance (m : MailAcceptance)
deriving DecidableEq, Repr

/-- Validation of a `TxOp`, with the signature-validity fact supplied externally. -/
def TxOp.verify : TxOp → Bool → Bool
  | TxOp.transfer t, s => t.verify s
  | TxOp.mailPreparation m, s => m.verify s
  | TxOp.mailAcceptance m, s => m.verify s

/-- Execution of a `TxOp` (the content hash of the operation supplied externally). -/
def TxOp.execute : TxOp → Hash → Ledger → ExecResult
  | TxOp.transfer t, h, l => t.execute h l
  | TxOp.mailPreparation m, h, l => m.execute h l
  | TxOp.mailAcceptance m, h, l => m.execute h l

/-- Treatment of one operation by the block-application driver: on success the new
state, on a typed error or a panic the fork is rolled back, keeping the pre-state. -/
def applyTx (l : Ledger) (op : TxOp) (h : Hash) : Ledger :=
  match op.execute h l with
  | some (Except.ok l1) => l1
  | _ => l

/-- Sequential application of a list of operations (each with its content hash). -/
def applySeq (l : Ledger) : List (TxOp × Hash) → Ledger
  | [] => l
  | p :: rest => applySeq (applyTx l p.1 p.2) rest

/-! ### Concrete fixtures used by witnesses and counterexamples -/

def wA : Wallet := { pub_key := 1, balance := 100, frozen_balance := 0, last_operation_hash := 0 }

def wB : Wallet := { pub_key := 2, balance := 40, frozen_balance := 5, last_operation_hash := 0 }

/-- A recorded transfer of 40 from account 1 to account 2. -/
def tAB : Transfer := { from_ := 1, to_ := 2, amount := 40, seed := 1 }

/-- A ledger with two accounts and the transfer `tAB` recorded under hash 77. -/
def ledgerAB : Ledger := { wallets := [wA, wB], txlog := [(77, StoredTx.transfer tAB)] }

/-- Account 2 holding only 10, less than the 40 of the recorded transfer `tAB`. -/
def wBpoor : Wallet := { pub_key := 2, balance := 10, frozen_balance := 0, last_operation_hash := 0 }

/-- A ledger in which the receiver of the recorded transfer `tAB` has already spent
the funds: its available balance 10 is below the recorded amount 40. -/
def ledgerPoor : Ledger := { wallets := [wA, wBpoor], txlog := [(77, StoredTx.transfer tAB)] }

/-- A reversal of the recorded transfer under hash 77, tagged as a Transfer. -/
def cRev : Cancellation := { pub_key := 5, sender := 5, tx_hash := 77, type_transaction := 1 }

def issueI : Issue := { pub_key := 2, issuer_key := 9, amount := 50, seed := 2 }

/-- A ledger whose operation log holds a non-Transfer message under hash 88. -/
def ledgerIssue : Ledger := { wallets := [wA, wB], txlog := [(88, StoredTx.issue issueI)] }

/-- A reversal referencing the stored Issue under hash 88, with a non-Transfer tag. -/
def cIssue : Cancellation := { pub_key := 1, sender := 1, tx_hash := 88, type_transaction := 0 }

/-! ### Lemmas about the wallet table -/

theorem findWallet_pub_key {ws : List Wallet} {k : PubKey} {w : Wallet}
    (h : findWallet ws k = some w) : w.pub_key = k := by
  simpa using List.find?_some h

theorem findWallet_putWallet_self (ws : List Wallet) (w1 : Wallet) (k : PubKey)
    (hk : w1.pub_key = k) : findWallet (putWallet ws w1) k = some w1 := by
  induction ws with
  | nil => simp [putWallet, findWallet, hk]
  | cons x rest ih =>
    cases hxw : (x.pub_key == w1.pub_key) with
    | true =>
      simp only [putWallet, hxw, if_true]
      simp [findWallet, hk]
    | false =>
      have hxk : (x.pub_key == k) = false := by
        subst hk
        simpa using hxw
      simpa [putWallet, hxw, findWallet, hxk] using ih

theorem findWallet_putWallet_other (ws : List Wallet) (w1 : Wallet) (k : PubKey)
    (hk : w1.pub_key ≠ k) : findWallet (putWallet ws w1) k = findWallet ws k := by
  have hw1k : (w1.pub_key == k) = false := by simpa using hk
  induction ws with
  | nil => simp [putWallet, findWallet, hw1k]
  | cons x rest ih =>
    cases hxw : (x.pub_key == w1.pub_key) with
    | true =>
      have hxk : (x.pub_key == k) = false := by
        have hx : x.pub_key = w1.pub_key := by simpa using hxw
        rw [hx]
        exact hw1k
      simp [putWallet, hxw, findWallet, hxk, hw1k]
    | false =>
      cases hxk : (x.pub_key == k) with
      | true => simp [putWallet, hxw, findWallet, hxk]
      | false => simpa [putWallet, hxw, findWallet, hxk] using ih

theorem wsum_putWallet (ws : List Wallet) (k : PubKey) (w w1 : Wallet)
    (hf : findWallet ws k = some w) (hk : w1.pub_key = k) :
    wsum (putWallet ws w1) + wval w = wsum ws + wval w1 := by
  induction ws with
  | nil => simp [findWallet] at hf
  | cons x rest ih =>
    cases hxk : (x.pub_key == k) with
    | true =>
      have hxw : (x.pub_key == w1.pub_key) = true := by
        subst hk
        exact hxk
      have hwx : w = x := by
        have := hf
        simp [findWallet, hxk] at this
        exact this.symm
      subst hwx
      simp only [putWallet, hxw, if_true, wsum, List.map_cons, List.sum_cons]
      omega
    | false =>
      have hxw : (x.pub_key == w1.pub_key) = false := by
        subst hk
        exact hxk
      have hf2 : findWallet rest k = some w := by
        simpa [findWallet, hxk] using hf
      have hrw := ih hf2
      simp only [wsum] at hrw
      simp only [putWallet, hxw, if_false, Bool.false_eq_true, wsum, List.map_cons,
        List.sum_cons]
      omega

theorem wview_putWallet_eq {k : PubKey} {w w1 : Wallet} (ws : List Wallet)
    (hf : findWallet ws k = some w) (hk : w1.pub_key = k)
    (hb : w1.balance = w.balance) (hz : w1.frozen_balance = w.frozen_balance) :
    (putWallet ws w1).map (fun w => (w.pub_key, w.balance, w.frozen_balance)) =
      ws.map (fun w => (w.pub_key, w.balance, w.frozen_balance)) := by
  induction ws with
  | nil => simp [findWallet] at hf
  | cons x rest ih =>
    cases hxk : (x.pub_key == k) with
    | true =>
      have hxw : (x.pub_key == w1.pub_key) = true := by
        subst hk
        exact hxk
      have hwx : w = x := by
        have := hf
        simp [findWallet, hxk] at this
        exact this.symm
      have hxkeq : x.pub_key = k := by simpa using hxk
      simp only [putWallet, hxw, if_true, List.map_cons]
      rw [hb, hz, hk, hwx, hxkeq]
    | false =>
      have hxw : (x.pub_key == w1.pub_key) = false := by
        subst hk
        exact hxk
      have hf2 : findWallet rest k = some w := by
        simpa [findWallet, hxk] using hf
      simp only [putWallet, hxw, if_false, Bool.false_eq_true, List.map_cons]
      rw [ih hf2]

/-! ### Claim theorems -/

/-- C10: the execution-error taxonomy carries the stable numeric codes
`WalletAlreadyExists = 0`, `SenderNotFound = 1`, `ReceiverNotFound = 2`,
`InsufficientCurrencyAmount = 3`, and each converts to an `ExecutionError` carrying
exactly that code together with its fixed human-readable description. -/
theorem error_taxonomy_codes_and_descriptions :
    Error.WalletAlreadyExists.code = 0 ∧
    Error.SenderNotFound.code = 1 ∧
    Error.ReceiverNotFound.code = 2 ∧
    Error.InsufficientCurrencyAmount.code = 3 ∧
    Error.WalletAlreadyExists.toExecutionError =
      { code := 0, description := "Wallet already exists" } ∧
    Error.SenderNotFound.toExecutionError =
      { code := 1, description := "Sender doesn\x27t exist" } ∧
    Error.ReceiverNotFound.toExecutionError =
      { code := 2, description := "Receiver doesn\x27t exist" } ∧
    Error.InsufficientCurrencyAmount.toExecutionError =
      { code := 3, description := "Insufficient currency amount" } :=
  ⟨rfl, rfl, rfl, rfl, rfl, rfl, rfl, rfl⟩

/-- C8: a Transfer whose sender equals its receiver fails validation (`verify` returns
`false`) regardless of balances and regardless of the signature-validity fact, so it is
rejected before execution. -/
theorem transfer_self_rejected (t : Transfer) (sigValid : Bool)
    (hself : t.from_ = t.to_) : t.verify sigValid = false := by
  simp [Transfer.verify, hself]

theorem transfer_self_rejected_witness :
    Transfer.verify { from_ := 3, to_ := 3, amount := 10, seed := 0 } true = false :=
  transfer_self_rejected { from_ := 3, to_ := 3, amount := 10, seed := 0 } true rfl

/-- C9: the result of `Cancellation::execute` depends only on `tx_hash` and
`type_transaction`: two Cancellations agreeing on those two fields but differing in
`pub_key` and `sender` produce identical results (state and outcome), so any account
whose signature verifies can reverse any recorded transfer — no check ties the
requester to the original parties. -/
theorem cancellation_ignores_requester (c1 c2 : Cancellation) (l : Ledger)
    (hh : c1.tx_hash = c2.tx_hash) (ht : c1.type_transaction = c2.type_transaction) :
    c1.execute l = c2.execute l := by
  unfold Cancellation.execute
  rw [hh, ht]

theorem cancellation_ignores_requester_witness :
    Cancellation.execute { pub_key := 10, sender := 11, tx_hash := 77, type_transaction := 1 } ledgerAB =
    Cancellation.execute { pub_key := 20, sender := 21, tx_hash := 77, type_transaction := 1 } ledgerAB :=
  cancellation_ignores_requester
    { pub_key := 10, sender := 11, tx_hash := 77, type_transaction := 1 }
    { pub_key := 20, sender := 21, tx_hash := 77, type_transaction := 1 } ledgerAB rfl rfl

/-- C1: when the `reference_hash` of a Reverse (Cancellation) is not present in the
operation log, `schema.transactions().get(&tx_hash).unwrap()` panics: execution ends in
a hard failure (`none`), NOT in a typed `OperationNotFound` error — no such variant even
exists in the error taxonomy. The fork is rolled back, so the ledger state is unchanged,
but the typed-error-never-a-crash behavior of the claim is exactly what the code does not do. -/
theorem cancellation_missing_reference_panics (c : Cancellation) (l : Ledger)
    (habs : l.transactionsGet c.tx_hash = none) : c.execute l = none := by
  unfold Cancellation.execute
  rw [habs]

theorem cancellation_missing_reference_panics_witness :
    Cancellation.execute { pub_key := 5, sender := 5, tx_hash := 99, type_transaction := 1 } ledgerAB = none :=
  cancellation_missing_reference_panics
    { pub_key := 5, sender := 5, tx_hash := 99, type_transaction := 1 } ledgerAB rfl

/-- C5 (amended): a Cancellation whose `type_transaction` tag is not the Transfer tag 1
is a no-op that still returns success, PROVIDED the referenced operation exists in the
log AND is a stored Transfer message: the code decodes the stored message as a
`Transfer` (and unwraps) before ever looking at the tag. -/
theorem cancellation_non_transfer_tag_noop (c : Cancellation) (l : Ledger) (t : Transfer)
    (hlog : l.transactionsGet c.tx_hash = some (StoredTx.transfer t))
    (htag : c.type_transaction ≠ 1) :
    c.execute l = some (Except.ok l) := by
  unfold Cancellation.execute
  rw [hlog]
  simp [StoredTx.asTransfer, htag]

theorem cancellation_non_transfer_tag_noop_witness :
    Cancellation.execute { pub_key := 5, sender := 5, tx_hash := 77, type_transaction := 3 } ledgerAB =
      some (Except.ok ledgerAB) :=
  cancellation_non_transfer_tag_noop
    { pub_key := 5, sender := 5, tx_hash := 77, type_transaction := 3 } ledgerAB tAB rfl
    (by decide)

/-- C5 (counterexample to the claim as stated): the referenced operation exists in the
log (hash 88 holds a stored Issue) and the tag is not the Transfer tag, yet execution is
not a success — `Message::from_raw::<Transfer>(..).unwrap()` panics on the stored
non-Transfer message before the tag is ever examined. -/
theorem cancellation_non_transfer_stored_panics :
    ledgerIssue.transactionsGet 88 = some (StoredTx.issue issueI) ∧
    cIssue.tx_hash = 88 ∧
    cIssue.type_transaction ≠ 1 ∧
    Cancellation.execute cIssue ledgerIssue = none ∧
    Cancellation.execute cIssue ledgerIssue ≠ some (Except.ok ledgerIssue) :=
  ⟨rfl, rfl, by decide, rfl, by decide⟩

theorem mail_acceptance_effect {m : MailAcceptance} {l : Ledger} {w : Wallet} (h : Hash)
    (hw : l.wallet m.sender = some w) :
    execIsOk (m.execute h l) = true ∧
    balancesView (execOkState (m.execute h l)) = balancesView l := by
  have hk : w.pub_key = m.sender := findWallet_pub_key hw
  unfold MailAcceptance.execute
  rw [hw]
  simp only [Ledger.decrease_wallet_balance, Nat.zero_le, if_true]
  refine ⟨rfl, ?_⟩
  simp only [execOkState, balancesView]
  exact wview_putWallet_eq l.wallets hw hk (Nat.sub_zero w.balance) rfl

/-- C6: a ReleaseFrozenFunds (MailAcceptance) execution fails with `SenderNotFound` when
the named account is missing; otherwise it performs a zero-amount balance movement, so
every account keeps its `available_balance` and `frozen_balance`; and the effect on
balances is identical whatever the `accept` flag and `amount` field hold — `m2` below is
any MailAcceptance naming the same account, with arbitrary other fields. -/
theorem mail_acceptance_zero_movement (m m2 : MailAcceptance) (h h2 : Hash) (l : Ledger)
    (hs : m2.sender = m.sender) :
    (l.wallet m.sender = none →
      m.execute h l = some (Except.error Error.SenderNotFound) ∧
      m2.execute h2 l = some (Except.error Error.SenderNotFound)) ∧
    ((l.wallet m.sender).isSome = true →
      execIsOk (m.execute h l) = true ∧ execIsOk (m2.execute h2 l) = true ∧
      balancesView (execOkState (m.execute h l)) = balancesView l ∧
      balancesView (execOkState (m2.execute h2 l)) = balancesView l) := by
  constructor
  · intro hnone
    constructor
    · unfold MailAcceptance.execute
      rw [hnone]
    · unfold MailAcceptance.execute
      rw [hs, hnone]
  · intro hsome
    obtain ⟨w, hw⟩ := Option.isSome_iff_exists.mp hsome
    have h1 := mail_acceptance_effect h hw
    have hw2 : l.wallet m2.sender = some w := by rw [hs]; exact hw
    have h2e := mail_acceptance_effect h2 hw2
    exact ⟨h1.1, h2e.1, h1.2, h2e.2⟩

theorem mail_acceptance_zero_movement_witness :
    execIsOk (MailAcceptance.execute
      { sender := 2, pub_key := 3, amount := 1000, accept := true, seed := 0 } 7 ledgerAB) = true ∧
    execIsOk (MailAcceptance.execute
      { sender := 2, pub_key := 3, amount := 0, accept := false, seed := 1 } 8 ledgerAB) = true ∧
    balancesView (execOkState (MailAcceptance.execute
      { sender := 2, pub_key := 3, amount := 1000, accept := true, seed := 0 } 7 ledgerAB)) =
      balancesView ledgerAB ∧
    balancesView (execOkState (MailAcceptance.execute
      { sender := 2, pub_key := 3, amount := 0, accept := false, seed := 1 } 8 ledgerAB)) =
      balancesView ledgerAB :=
  (mail_acceptance_zero_movement
    { sender := 2, pub_key := 3, amount := 1000, accept := true, seed := 0 }
    { sender := 2, pub_key := 3, amount := 0, accept := false, seed := 1 }
    7 8 ledgerAB rfl).2 (by decide)

/-- C7: a FreezeFunds (MailPreparation) execution fails with `SenderNotFound` when the
owner account is missing, fails with `InsufficientCurrencyAmount` when the
available balance of the owner is strictly below the amount, and otherwise debits the amount from the
available balance with freeze tag equal to the amount, so the funds move into
`frozen_balance` bookkeeping and the total of the account (hence the total value of the ledger) is
conserved rather than destroyed. -/
theorem mail_preparation_freezes (m : MailPreparation) (h : Hash) (l : Ledger) (s : Wallet) :
    (l.wallet m.pub_key = none → m.execute h l = some (Except.error Error.SenderNotFound)) ∧
    (l.wallet m.pub_key = some s → s.balance < m.amount →
      m.execute h l = some (Except.error Error.InsufficientCurrencyAmount)) ∧
    (l.wallet m.pub_key = some s → m.amount ≤ s.balance →
      execIsOk (m.execute h l) = true ∧
      (execOkState (m.execute h l)).wallet m.pub_key =
        some { s with balance := s.balance - m.amount,
                      frozen_balance := s.frozen_balance + m.amount,
                      last_operation_hash := h } ∧
      totalValue (execOkState (m.execute h l)) = totalValue l) := by
  refine ⟨?_, ?_, ?_⟩
  · intro hnone
    unfold MailPreparation.execute
    rw [hnone]
  · intro hw hlt
    unfold MailPreparation.execute
    rw [hw]
    simp only [hlt, if_true]
  · intro hw hbal
    have hk : s.pub_key = m.pub_key := findWallet_pub_key hw
    have hnlt : ¬ (s.balance < m.amount) := Nat.not_lt.mpr hbal
    unfold MailPreparation.execute
    rw [hw]
    simp only [hnlt, if_false, Ledger.decrease_wallet_balance, hbal, if_true]
    refine ⟨rfl, ?_, ?_⟩
    · simp only [execOkState, Ledger.wallet]
      exact findWallet_putWallet_self l.wallets _ _ hk
    · simp only [execOkState, totalValue]
      have hsum := wsum_putWallet l.wallets _ _
        { s with balance := s.balance - m.amount,
                        frozen_balance := s.frozen_balance + m.amount,
                        last_operation_hash := h }
        hw hk
      simp [wval] at hsum
      omega

theorem mail_preparation_freezes_witness :
    execIsOk (MailPreparation.execute
      { meta := "m", pub_key := 1, amount := 30, seed := 0 } 9 ledgerAB) = true ∧
    (execOkState (MailPreparation.execute
      { meta := "m", pub_key := 1, amount := 30, seed := 0 } 9 ledgerAB)).wallet 1 =
      some { wA with balance := wA.balance - 30,
                     frozen_balance := wA.frozen_balance + 30,
                     last_operation_hash := 9 } ∧
    totalValue (execOkState (MailPreparation.execute
      { meta := "m", pub_key := 1, amount := 30, seed := 0 } 9 ledgerAB)) =
      totalValue ledgerAB :=
  (mail_preparation_freezes { meta := "m", pub_key := 1, amount := 30, seed := 0 }
    9 ledgerAB wA).2.2 rfl (by decide)

/-- C4: a Transfer execution fails with `SenderNotFound` when the sender account is
missing (checked first), with `ReceiverNotFound` when the sender exists but the receiver
is missing, and with `InsufficientCurrencyAmount` when the available balance of the sender is
strictly below the amount; otherwise it debits the sender and credits the receiver by
the amount, both records tagged with the hash of this operation and an unchanged (zero freeze
tag) `frozen_balance`, conserving the total value of the ledger. The hypothesis
`t.from_ ≠ t.to_` is the Validation Stage precondition (spec §4.3: execution assumes
validation already passed, and validation rejects self-transfers). -/
theorem transfer_execute_correct (t : Transfer) (h : Hash) (l : Ledger) (s r : Wallet)
    (hne : t.from_ ≠ t.to_) :
    (l.wallet t.from_ = none → t.execute h l = some (Except.error Error.SenderNotFound)) ∧
    (l.wallet t.from_ = some s → l.wallet t.to_ = none →
      t.execute h l = some (Except.error Error.ReceiverNotFound)) ∧
    (l.wallet t.from_ = some s → l.wallet t.to_ = some r → s.balance < t.amount →
      t.execute h l = some (Except.error Error.InsufficientCurrencyAmount)) ∧
    (l.wallet t.from_ = some s → l.wallet t.to_ = some r → t.amount ≤ s.balance →
      execIsOk (t.execute h l) = true ∧
      (execOkState (t.execute h l)).wallet t.from_ =
        some { s with balance := s.balance - t.amount, last_operation_hash := h } ∧
      (execOkState (t.execute h l)).wallet t.to_ =
        some { r with balance := r.balance + t.amount, last_operation_hash := h } ∧
      totalValue (execOkState (t.execute h l)) = totalValue l) := by
  refine ⟨?_, ?_, ?_, ?_⟩
  · intro hsn
    unfold Transfer.execute
    rw [hsn]
  · intro hs hr
    unfold Transfer.execute
    rw [hs, hr]
  · intro hs hr hlt
    unfold Transfer.execute
    rw [hs, hr]
    simp only [hlt, if_true]
  · intro hs hr hbal
    have hks : s.pub_key = t.from_ := findWallet_pub_key hs
    have hkr : r.pub_key = t.to_ := findWallet_pub_key hr
    have hnlt : ¬ (s.balance < t.amount) := Nat.not_lt.mpr hbal
    have hrne : r.pub_key ≠ t.from_ := by
      rw [hkr]
      exact fun hc => hne hc.symm
    have hsne : s.pub_key ≠ t.to_ := by
      rw [hks]
      exact hne
    unfold Transfer.execute
    rw [hs, hr]
    simp only [hnlt, if_false, Ledger.decrease_wallet_balance, hbal, if_true,
      Ledger.increase_wallet_balance]
    refine ⟨rfl, ?_, ?_, ?_⟩
    · simp only [execOkState, Ledger.wallet]
      rw [findWallet_putWallet_other _
          ({ r with balance := r.balance + t.amount, last_operation_hash := h }) _ hrne,
        findWallet_putWallet_self _
          ({ s with balance := s.balance - t.amount,
                          frozen_balance := s.frozen_balance + 0,
                          last_operation_hash := h }) _ hks]
      simp
    · simp only [execOkState, Ledger.wallet]
      rw [findWallet_putWallet_self _
          ({ r with balance := r.balance + t.amount, last_operation_hash := h }) _ hkr]
    · simp only [execOkState, totalValue]
      have hf2 : findWallet (putWallet l.wallets
          { s with balance := s.balance - t.amount,
                   frozen_balance := s.frozen_balance + 0,
                   last_operation_hash := h }) t.to_ = some r := by
        rw [findWallet_putWallet_other _
            ({ s with balance := s.balance - t.amount,
                            frozen_balance := s.frozen_balance + 0,
                            last_operation_hash := h }) _ hsne]
        exact hr
      have h1 := wsum_putWallet l.wallets _ _
        { s with balance := s.balance - t.amount,
                        frozen_balance := s.frozen_balance + 0,
                        last_operation_hash := h }
        hs hks
      have h2 := wsum_putWallet _ _ _
        { r with balance := r.balance + t.amount, last_operation_hash := h }
        hf2 hkr
      simp [wval] at h1 h2
      simp only [Nat.add_zero]
      omega

theorem transfer_execute_correct_witness :
    execIsOk (Transfer.execute tAB 55 ledgerAB) = true ∧
    (execOkState (Transfer.execute tAB 55 ledgerAB)).wallet 1 =
      some { wA with balance := wA.balance - 40, last_operation_hash := 55 } ∧
    (execOkState (Transfer.execute tAB 55 ledgerAB)).wallet 2 =
      some { wB with balance := wB.balance + 40, last_operation_hash := 55 } ∧
    totalValue (execOkState (Transfer.execute tAB 55 ledgerAB)) = totalValue ledgerAB :=
  (transfer_execute_correct tAB 55 ledgerAB wA wB (by decide)).2.2.2 rfl rfl (by decide)

/-- C2 (amended): reversing a recorded Transfer of amount `A` from `S` to `R` (distinct,
as validation guarantees for recorded transfers), when both accounts still exist: if
the available balance of `R` is at least `A` at reversal time, execution succeeds, debits `R`
by `A` and credits `S` by `A` (restoring their pre-transfer balances when no other
operation touched them) and conserves total value; if the available balance of `R` is
strictly below `A`, execution aborts with a hard u64-underflow failure (a panic, rolled
back so balances are unchanged) — NOT with the typed `InsufficientCurrencyAmount`
error the claim states, since `Cancellation::execute` performs no balance check before
debiting the receiver. -/
theorem cancellation_reverses_transfer (c : Cancellation) (l : Ledger) (t : Transfer)
    (s r : Wallet)
    (hlog : l.transactionsGet c.tx_hash = some (StoredTx.transfer t))
    (htag : c.type_transaction = 1)
    (hne : t.from_ ≠ t.to_)
    (hs : l.wallet t.from_ = some s) (hr : l.wallet t.to_ = some r) :
    (t.amount ≤ r.balance →
      execIsOk (c.execute l) = true ∧
      (execOkState (c.execute l)).wallet t.from_ =
        some { s with balance := s.balance + t.amount, last_operation_hash := c.tx_hash } ∧
      (execOkState (c.execute l)).wallet t.to_ =
        some { r with balance := r.balance - t.amount, last_operation_hash := c.tx_hash } ∧
      totalValue (execOkState (c.execute l)) = totalValue l) ∧
    (r.balance < t.amount → c.execute l = none) := by
  have hks : s.pub_key = t.from_ := findWallet_pub_key hs
  have hkr : r.pub_key = t.to_ := findWallet_pub_key hr
  have hsne : s.pub_key ≠ t.to_ := by
    rw [hks]
    exact hne
  have hrne : r.pub_key ≠ t.from_ := by
    rw [hkr]
    exact fun hc => hne hc.symm
  constructor
  · intro hbal
    unfold Cancellation.execute
    rw [hlog]
    simp only [StoredTx.asTransfer, htag, if_true]
    rw [hs, hr]
    simp only [Ledger.decrease_wallet_balance, hbal, if_true,
      Ledger.increase_wallet_balance]
    refine ⟨rfl, ?_, ?_, ?_⟩
    · simp only [execOkState, Ledger.wallet]
      rw [findWallet_putWallet_self _
          ({ s with balance := s.balance + t.amount,
                          last_operation_hash := c.tx_hash }) _ hks]
    · simp only [execOkState, Ledger.wallet]
      rw [findWallet_putWallet_other _
          ({ s with balance := s.balance + t.amount,
                          last_operation_hash := c.tx_hash }) _ hsne,
        findWallet_putWallet_self _
          ({ r with balance := r.balance - t.amount,
                          frozen_balance := r.frozen_balance + 0,
                          last_operation_hash := c.tx_hash }) _ hkr]
      simp
    · simp only [execOkState, totalValue]
      have hf2 : findWallet (putWallet l.wallets
          { r with balance := r.balance - t.amount,
                   frozen_balance := r.frozen_balance + 0,
                   last_operation_hash := c.tx_hash }) t.from_ = some s := by
        rw [findWallet_putWallet_other _
            ({ r with balance := r.balance - t.amount,
                            frozen_balance := r.frozen_balance + 0,
                            last_operation_hash := c.tx_hash }) _ hrne]
        exact hs
      have h1 := wsum_putWallet l.wallets _ _
        { r with balance := r.balance - t.amount,
                        frozen_balance := r.frozen_balance + 0,
                        last_operation_hash := c.tx_hash }
        hr hkr
      have h2 := wsum_putWallet _ _ _
        { s with balance := s.balance + t.amount,
                        last_operation_hash := c.tx_hash }
        hf2 hks
      simp [wval] at h1 h2
      simp only [Nat.add_zero]
      omega
  · intro hlt
    have hnb : ¬ (t.amount ≤ r.balance) := Nat.not_le.mpr hlt
    unfold Cancellation.execute
    rw [hlog]
    simp only [StoredTx.asTransfer, htag, if_true]
    rw [hs, hr]
    simp only [Ledger.decrease_wallet_balance, hnb, if_false]

theorem cancellation_reverses_transfer_witness :
    execIsOk (Cancellation.execute cRev ledgerAB) = true ∧
    (execOkState (Cancellation.execute cRev ledgerAB)).wallet 1 =
      some { wA with balance := wA.balance + 40, last_operation_hash := 77 } ∧
    (execOkState (Cancellation.execute cRev ledgerAB)).wallet 2 =
      some { wB with balance := wB.balance - 40, last_operation_hash := 77 } ∧
    totalValue (execOkState (Cancellation.execute cRev ledgerAB)) = totalValue ledgerAB :=
  (cancellation_reverses_transfer cRev ledgerAB tAB wA wB rfl rfl (by decide) rfl rfl).1
    (by decide)

/-- C2 (counterexample to the claim as stated): in `ledgerPoor` the recorded transfer
of 40 from account 1 to account 2 exists, both accounts exist, and the available
balance 10 of the receiver is strictly below 40 — the reversal does NOT fail with the typed
`InsufficientCurrencyAmount` error; it ends in the u64-underflow hard failure (`none`)
inside the unguarded debit of the receiver. -/
theorem cancellation_insufficient_is_panic :
    Ledger.transactionsGet ledgerPoor 77 = some (StoredTx.transfer tAB) ∧
    Ledger.wallet ledgerPoor tAB.from_ = some wA ∧
    Ledger.wallet ledgerPoor tAB.to_ = some wBpoor ∧
    wBpoor.balance < tAB.amount ∧
    Cancellation.execute cRev ledgerPoor = none ∧
    Cancellation.execute cRev ledgerPoor ≠
      some (Except.error Error.InsufficientCurrencyAmount) :=
  ⟨rfl, rfl, rfl, by decide, rfl, by decide⟩

theorem totalValue_applyTx (l : Ledger) (op : TxOp) (h : Hash)
    (hv : op.verify true = true) : totalValue (applyTx l op h) = totalValue l := by
  cases op with
  | transfer t =>
    have hne : t.from_ ≠ t.to_ := by
      simp [TxOp.verify, Transfer.verify] at hv
      exact hv
    simp only [applyTx, TxOp.execute]
    cases hs : l.wallet t.from_ with
    | none =>
      have he : t.execute h l = some (Except.error Error.SenderNotFound) := by
        unfold Transfer.execute
        rw [hs]
      rw [he]
    | some s =>
      cases hr : l.wallet t.to_ with
      | none =>
        have he : t.execute h l = some (Except.error Error.ReceiverNotFound) := by
          unfold Transfer.execute
          rw [hs, hr]
        rw [he]
      | some r =>
        by_cases hb : s.balance < t.amount
        · have he : t.execute h l = some (Except.error Error.InsufficientCurrencyAmount) := by
            unfold Transfer.execute
            rw [hs, hr]
            simp only [hb, if_true]
          rw [he]
        · have hbal : t.amount ≤ s.balance := Nat.not_lt.mp hb
          have hks : s.pub_key = t.from_ := findWallet_pub_key hs
          have hkr : r.pub_key = t.to_ := findWallet_pub_key hr
          have hsne : s.pub_key ≠ t.to_ := by
            rw [hks]
            exact hne
          have he : t.execute h l = some (Except.ok (Ledger.mk
              (putWallet (putWallet l.wallets
                { s with balance := s.balance - t.amount,
                         frozen_balance := s.frozen_balance + 0,
                         last_operation_hash := h })
                { r with balance := r.balance + t.amount, last_operation_hash := h })
              l.txlog)) := by
            unfold Transfer.execute
            rw [hs, hr]
            simp only [hb, if_false, Ledger.decrease_wallet_balance, hbal, if_true,
              Ledger.increase_wallet_balance]
          rw [he]
          simp only [totalValue]
          have hf2 : findWallet (putWallet l.wallets
              { s with balance := s.balance - t.amount,
                       frozen_balance := s.frozen_balance + 0,
                       last_operation_hash := h }) t.to_ = some r := by
            rw [findWallet_putWallet_other _
                ({ s with balance := s.balance - t.amount,
                                frozen_balance := s.frozen_balance + 0,
                                last_operation_hash := h }) _ hsne]
            exact hr
          have h1 := wsum_putWallet l.wallets _ _
            { s with balance := s.balance - t.amount,
                            frozen_balance := s.frozen_balance + 0,
                            last_operation_hash := h }
            hs hks
          have h2 := wsum_putWallet _ _ _
            { r with balance := r.balance + t.amount, last_operation_hash := h }
            hf2 hkr
          simp [wval] at h1 h2
          simp only [Nat.add_zero]
          omega
  | mailPreparation m =>
    simp only [applyTx, TxOp.execute]
    cases hw : l.wallet m.pub_key with
    | none =>
      have he : m.execute h l = some (Except.error Error.SenderNotFound) := by
        unfold MailPreparation.execute
        rw [hw]
      rw [he]
    | some s =>
      by_cases hb : s.balance < m.amount
      · have he : m.execute h l = some (Except.error Error.InsufficientCurrencyAmount) := by
          unfold MailPreparation.execute
          rw [hw]
          simp only [hb, if_true]
        rw [he]
      · have hbal : m.amount ≤ s.balance := Nat.not_lt.mp hb
        have hks : s.pub_key = m.pub_key := findWallet_pub_key hw
        have he : m.execute h l = some (Except.ok (Ledger.mk
            (putWallet l.wallets
              { s with balance := s.balance - m.amount,
                       frozen_balance := s.frozen_balance + m.amount,
                       last_operation_hash := h })
            l.txlog)) := by
          unfold MailPreparation.execute
          rw [hw]
          simp only [hb, if_false, Ledger.decrease_wallet_balance, hbal, if_true]
        rw [he]
        simp only [totalValue]
        have h1 := wsum_putWallet l.wallets _ _
          { s with balance := s.balance - m.amount,
                          frozen_balance := s.frozen_balance + m.amount,
                          last_operation_hash := h }
          hw hks
        simp [wval] at h1
        omega
  | mailAcceptance m =>
    simp only [applyTx, TxOp.execute]
    cases hw : l.wallet m.sender with
    | none =>
      have he : m.execute h l = some (Except.error Error.SenderNotFound) := by
        unfold MailAcceptance.execute
        rw [hw]
      rw [he]
    | some s =>
      have hks : s.pub_key = m.sender := findWallet_pub_key hw
      have he : m.execute h l = some (Except.ok (Ledger.mk
          (putWallet l.wallets
            { s with balance := s.balance - 0,
                     frozen_balance := s.frozen_balance + 0,
                     last_operation_hash := h })
          l.txlog)) := by
        unfold MailAcceptance.execute
        rw [hw]
        simp only [Ledger.decrease_wallet_balance, Nat.zero_le, if_true]
      rw [he]
      simp only [totalValue]
      have h1 := wsum_putWallet l.wallets _ _
        { s with balance := s.balance - 0,
                        frozen_balance := s.frozen_balance + 0,
                        last_operation_hash := h }
        hw hks
      simp [wval] at h1
      simp only [Nat.add_zero, Nat.sub_zero]
      omega

/-- C3: for any sequence of Transfer, FreezeFunds (MailPreparation) and
ReleaseFrozenFunds (MailAcceptance) operations — no Issue, no Reverse — each of which
passes its validation predicate (with its signature-validity fact true; for a Transfer
this is exactly `sender ≠ receiver`), the sum of `available_balance + frozen_balance`
over all accounts is the same before and after the sequence, regardless of which
executions succeed or fail. -/
theorem conservation_over_sequences (ops : List (TxOp × Hash)) (l : Ledger)
    (hv : ∀ p ∈ ops, TxOp.verify p.1 true = true) :
    totalValue (applySeq l ops) = totalValue l := by
  induction ops generalizing l with
  | nil => rfl
  | cons p rest ih =>
    have h1 := totalValue_applyTx l p.1 p.2 (hv p (List.mem_cons_self p rest))
    have h2 := ih (applyTx l p.1 p.2) (fun q hq => hv q (List.mem_cons_of_mem p hq))
    simp only [applySeq]
    rw [h2, h1]

theorem conservation_over_sequences_witness :
    totalValue (applySeq ledgerAB
      [ (TxOp.transfer tAB, 101),
        (TxOp.mailPreparation { meta := "x", pub_key := 2, amount := 30, seed := 7 }, 102),
        (TxOp.mailAcceptance { sender := 1, pub_key := 2, amount := 9, accept := false, seed := 8 }, 103),
        (TxOp.transfer { from_ := 2, to_ := 1, amount := 1000, seed := 9 }, 104) ]) =
      totalValue ledgerAB :=
  conservation_over_sequences
    [ (TxOp.transfer tAB, 101),
      (TxOp.mailPreparation { meta := "x", pub_key := 2, amount := 30, seed := 7 }, 102),
      (TxOp.mailAcceptance { sender := 1, pub_key := 2, amount := 9, accept := false, seed := 8 }, 103),
      (TxOp.transfer { from_ := 2, to_ := 1, amount := 1000, seed := 9 }, 104) ]
    ledgerAB (by decide)
